import Mathlib

/-
Verification of the extent-hook indirection layer
(include/jemalloc/internal/ehooks.h).

Shallow embedding: the C dispatch functions become pure Lean functions
over an explicit world state.  The world carries the hook handle (the
atomically published table pointer, modelled as a tagged reference so
that identity comparison with the process-wide default table is the tag
check) and the calling thread reentrancy counter.  Each dispatch call
also produces a trace of observable events (guard enter and exit,
thread-context fetch, a direct call into a default fast-path impl, an
indirect call through a table slot), which makes control-path claims
statable.  External hook functions are modelled as pure functions of
their arguments; the default fast-path impls (declared in the header,
defined elsewhere) are an abstract parameter bundle so theorems hold for
every possible backend behaviour.
-/

/-- Machine addresses passed opaquely through the layer. -/
abbrev Ptr := Nat

/-- A thread-context token: none models a NULL tsdn. -/
abbrev Tsdn := Option Unit

/-- The nine extent operations dispatched by this layer. -/
inductive Op where
  | alloc
  | dalloc
  | destroy
  | commitOp
  | decommit
  | purgeLazy
  | purgeForced
  | split
  | merge
deriving DecidableEq, Repr

/-- Observable events of a dispatch call: reentrancy-guard enter and
exit, the on-the-fly thread-context fetch, a direct call into a default
fast-path impl, and an indirect call through a table slot. -/
inductive Event where
  | tsdFetch
  | preReentrancy
  | postReentrancy
  | callDefault (op : Op)
  | callHook (op : Op)
deriving DecidableEq, Repr

/-- Hook slot types, mirroring the extent_hooks_t member signatures
(with the leading self pointer dropped: the hooks are modelled as
closures, so passing the table to itself adds nothing observable).
The alloc hook returns the address (none models NULL) together with the
written-back zero and commit flags. -/
abbrev AllocHookT := Ptr → Nat → Nat → Bool → Bool → Nat → Option Ptr × Bool × Bool

/-- dalloc hook: addr, size, committed, arena_ind. -/
abbrev DallocHookT := Ptr → Nat → Bool → Nat → Bool

/-- destroy hook: addr, size, committed, arena_ind; no result. -/
abbrev DestroyHookT := Ptr → Nat → Bool → Nat → Unit

/-- commit, decommit and both purge hooks: addr, size, offset, length,
arena_ind. -/
abbrev RangeHookT := Ptr → Nat → Nat → Nat → Nat → Bool

/-- split hook: addr, size, size_a, size_b, committed, arena_ind. -/
abbrev SplitHookT := Ptr → Nat → Nat → Nat → Bool → Nat → Bool

/-- merge hook: addr_a, size_a, addr_b, size_b, committed, arena_ind. -/
abbrev MergeHookT := Ptr → Nat → Ptr → Nat → Bool → Nat → Bool

/-- extent_hooks_t: a record of optional function slots; none models a
NULL function pointer. -/
structure ExtentHooks where
  alloc : Option AllocHookT
  dalloc : Option DallocHookT
  destroy : Option DestroyHookT
  commitSlot : Option RangeHookT
  decommit : Option RangeHookT
  purge_lazy : Option RangeHookT
  purge_forced : Option RangeHookT
  split : Option SplitHookT
  merge : Option MergeHookT

/-- An extent_hooks_t pointer value: either the address of the
process-wide ehooks_default_extent_hooks singleton, or a pointer to a
caller-supplied table.  The tag models pointer identity, so the source
comparison against the default-table address is exactly the tag check,
and a custom table structurally equal to the default one is still
custom. -/
inductive TablePtr where
  | default
  | custom (t : ExtentHooks)

/-- The state a dispatch call can read or write: the hook handle
(struct ehooks_s, one atomic table pointer) and the calling thread
reentrancy counter (the per-thread state behind
tsd_pre_reentrancy_raw and tsd_post_reentrancy_raw). -/
structure World where
  hooks : TablePtr
  tsd : Int

/-- The default fast-path impls declared in the header
(ehooks_default_alloc_impl and friends, defined outside this layer).
Kept abstract as a parameter bundle so every theorem holds for any
backend behaviour.  The purge members stand for the impls that exist
only when the corresponding capability flag is set at build time. -/
structure DefaultImpls where
  alloc_impl : Tsdn → Ptr → Nat → Nat → Bool → Bool → Nat → Option Ptr × Bool × Bool
  dalloc_impl : Ptr → Nat → Bool
  destroy_impl : Ptr → Nat → Unit
  commit_impl : Ptr → Nat → Nat → Bool
  decommit_impl : Ptr → Nat → Nat → Bool
  purge_lazy_impl : Ptr → Nat → Nat → Bool
  purge_forced_impl : Ptr → Nat → Nat → Bool
  split_impl : Bool
  merge_impl : Ptr → Ptr → Bool

/-- Modelled from the spec: tsd_fetch (thread-context management, not
under src/) establishes the calling thread context on the fly when none
was passed in, and returns that same per-thread state. -/
def tsd_fetch (w : World) : Int := w.tsd

/-- Modelled from the spec: tsd_pre_reentrancy_raw (not under src/)
increments the per-thread reentrancy counter. -/
def tsd_pre_reentrancy_raw (n : Int) : Int := n + 1

/-- Modelled from the spec: tsd_post_reentrancy_raw (not under src/)
decrements the per-thread reentrancy counter. -/
def tsd_post_reentrancy_raw (n : Int) : Int := n - 1

/-- ehooks_pre_reentrancy: when the tsdn token is NULL the thread
context is fetched on the fly, then the raw enter is applied to it. -/
def ehooks_pre_reentrancy (tsdn : Tsdn) (w : World) : World × List Event :=
  match tsdn with
  | none =>
      ({ w with tsd := tsd_pre_reentrancy_raw (tsd_fetch w) },
        [Event.tsdFetch, Event.preReentrancy])
  | some _ =>
      ({ w with tsd := tsd_pre_reentrancy_raw w.tsd }, [Event.preReentrancy])

/-- ehooks_post_reentrancy: when the tsdn token is NULL the thread
context is fetched on the fly, then the raw exit is applied to it. -/
def ehooks_post_reentrancy (tsdn : Tsdn) (w : World) : World × List Event :=
  match tsdn with
  | none =>
      ({ w with tsd := tsd_post_reentrancy_raw (tsd_fetch w) },
        [Event.tsdFetch, Event.postReentrancy])
  | some _ =>
      ({ w with tsd := tsd_post_reentrancy_raw w.tsd }, [Event.postReentrancy])

/-- ehooks_set_extent_hooks_ptr: atomic release store of the table
pointer into the handle. -/
def ehooks_set_extent_hooks_ptr (w : World) (t : TablePtr) : World :=
  { w with hooks := t }

/-- ehooks_get_extent_hooks_ptr: atomic acquire load of the table
pointer from the handle. -/
def ehooks_get_extent_hooks_ptr (w : World) : TablePtr := w.hooks

/-- Modelled from the spec: ehooks_init (defined in ehooks.c, not under
src/) stores the given table reference into the handle. -/
def ehooks_init (w : World) (t : TablePtr) : World :=
  ehooks_set_extent_hooks_ptr w t

/-- Pointer-identity test against the default table singleton. -/
def isDefaultPtr : TablePtr → Bool
  | TablePtr.default => true
  | TablePtr.custom _ => false

/-- ehooks_are_default: identity comparison of the loaded pointer with
the address of ehooks_default_extent_hooks. -/
def ehooks_are_default (w : World) : Bool :=
  isDefaultPtr (ehooks_get_extent_hooks_ptr w)

/-- Modelled from the spec: the contents of the process-wide default
table ehooks_default_extent_hooks (defined in ehooks.c, not under
src/): every slot present and backed by the corresponding default impl,
except the purge slots, present only when the matching build-time
capability flag is set. -/
def ehooks_default_table (D : DefaultImpls) (canPL canPF : Bool) : ExtentHooks where
  alloc := some (fun a s al z c i => D.alloc_impl none a s al z c i)
  dalloc := some (fun a s _ _ => D.dalloc_impl a s)
  destroy := some (fun a s _ _ => D.destroy_impl a s)
  commitSlot := some (fun a _ o l _ => D.commit_impl a o l)
  decommit := some (fun a _ o l _ => D.decommit_impl a o l)
  purge_lazy := if canPL then some (fun a _ o l _ => D.purge_lazy_impl a o l) else none
  purge_forced := if canPF then some (fun a _ o l _ => D.purge_forced_impl a o l) else none
  split := some (fun _ _ _ _ _ _ => D.split_impl)
  merge := some (fun a _ b _ _ _ => D.merge_impl a b)

/-- Dereference a table pointer to the table it points to. -/
def derefTablePtr (D : DefaultImpls) (canPL canPF : Bool) : TablePtr → ExtentHooks
  | TablePtr.default => ehooks_default_table D canPL canPF
  | TablePtr.custom t => t

/-- ehooks_split_will_fail: the split slot of the current table is
NULL.  A pure predicate: it only loads the pointer and inspects a slot,
with no state change and no guard. -/
def ehooks_split_will_fail (D : DefaultImpls) (canPL canPF : Bool) (w : World) : Bool :=
  ((derefTablePtr D canPL canPF (ehooks_get_extent_hooks_ptr w)).split).isNone

/-- ehooks_merge_will_fail: the merge slot of the current table is
NULL. -/
def ehooks_merge_will_fail (D : DefaultImpls) (canPL canPF : Bool) (w : World) : Bool :=
  ((derefTablePtr D canPL canPF (ehooks_get_extent_hooks_ptr w)).merge).isNone

/-- ehooks_alloc.  The source has no NULL check on the alloc slot: for
a non-default table it calls through the slot unconditionally, so an
absent slot is a NULL-pointer call with no defined result, modelled as
none. -/
def ehooks_alloc (D : DefaultImpls) (tsdn : Tsdn) (w : World) (new_addr : Ptr)
    (size alignment : Nat) (zero commitFlag : Bool) (arena_ind : Nat) :
    Option ((Option Ptr × Bool × Bool) × World × List Event) :=
  match ehooks_get_extent_hooks_ptr w with
  | TablePtr.default =>
      some (D.alloc_impl tsdn new_addr size alignment zero commitFlag arena_ind,
        w, [Event.callDefault Op.alloc])
  | TablePtr.custom t =>
      match t.alloc with
      | none => none
      | some f =>
          let p1 := ehooks_pre_reentrancy tsdn w
          let r := f new_addr size alignment zero commitFlag arena_ind
          let p2 := ehooks_post_reentrancy tsdn p1.1
          some (r, p2.1, p1.2 ++ [Event.callHook Op.alloc] ++ p2.2)

/-- ehooks_dalloc: default fast path, absent-slot fallback true, else a
guarded indirect call. -/
def ehooks_dalloc (D : DefaultImpls) (tsdn : Tsdn) (w : World) (addr : Ptr)
    (size : Nat) (committed : Bool) (arena_ind : Nat) : Bool × World × List Event :=
  match ehooks_get_extent_hooks_ptr w with
  | TablePtr.default =>
      (D.dalloc_impl addr size, w, [Event.callDefault Op.dalloc])
  | TablePtr.custom t =>
      match t.dalloc with
      | none => (true, w, [])
      | some f =>
          let p1 := ehooks_pre_reentrancy tsdn w
          let err := f addr size committed arena_ind
          let p2 := ehooks_post_reentrancy tsdn p1.1
          (err, p2.1, p1.2 ++ [Event.callHook Op.dalloc] ++ p2.2)

/-- ehooks_destroy: default fast path, absent-slot no-op, else a
guarded indirect call; no result in any case (the destroy hook type
returns void, so any value it might produce is ignored by type). -/
def ehooks_destroy (D : DefaultImpls) (tsdn : Tsdn) (w : World) (addr : Ptr)
    (size : Nat) (committed : Bool) (arena_ind : Nat) : World × List Event :=
  match ehooks_get_extent_hooks_ptr w with
  | TablePtr.default =>
      let _u := D.destroy_impl addr size
      (w, [Event.callDefault Op.destroy])
  | TablePtr.custom t =>
      match t.destroy with
      | none => (w, [])
      | some f =>
          let p1 := ehooks_pre_reentrancy tsdn w
          let _u := f addr size committed arena_ind
          let p2 := ehooks_post_reentrancy tsdn p1.1
          (p2.1, p1.2 ++ [Event.callHook Op.destroy] ++ p2.2)

/-- ehooks_commit: default fast path, absent-slot fallback true, else a
guarded indirect call. -/
def ehooks_commit (D : DefaultImpls) (tsdn : Tsdn) (w : World) (addr : Ptr)
    (size offset length arena_ind : Nat) : Bool × World × List Event :=
  match ehooks_get_extent_hooks_ptr w with
  | TablePtr.default =>
      (D.commit_impl addr offset length, w, [Event.callDefault Op.commitOp])
  | TablePtr.custom t =>
      match t.commitSlot with
      | none => (true, w, [])
      | some f =>
          let p1 := ehooks_pre_reentrancy tsdn w
          let err := f addr size offset length arena_ind
          let p2 := ehooks_post_reentrancy tsdn p1.1
          (err, p2.1, p1.2 ++ [Event.callHook Op.commitOp] ++ p2.2)

/-- ehooks_decommit: default fast path, absent-slot fallback true, else
a guarded indirect call. -/
def ehooks_decommit (D : DefaultImpls) (tsdn : Tsdn) (w : World) (addr : Ptr)
    (size offset length arena_ind : Nat) : Bool × World × List Event :=
  match ehooks_get_extent_hooks_ptr w with
  | TablePtr.default =>
      (D.decommit_impl addr offset length, w, [Event.callDefault Op.decommit])
  | TablePtr.custom t =>
      match t.decommit with
      | none => (true, w, [])
      | some f =>
          let p1 := ehooks_pre_reentrancy tsdn w
          let err := f addr size offset length arena_ind
          let p2 := ehooks_post_reentrancy tsdn p1.1
          (err, p2.1, p1.2 ++ [Event.callHook Op.decommit] ++ p2.2)

/-- ehooks_purge_lazy.  The build-time capability flag canPL gates only
the default fast path (the ifdef block in the source); control then
falls through to the slot check on whatever table the pointer
references, so a populated custom slot is invoked regardless of the
flag. -/
def ehooks_purge_lazy (D : DefaultImpls) (canPL canPF : Bool) (tsdn : Tsdn)
    (w : World) (addr : Ptr) (size offset length arena_ind : Nat) :
    Bool × World × List Event :=
  if canPL && isDefaultPtr (ehooks_get_extent_hooks_ptr w) then
    (D.purge_lazy_impl addr offset length, w, [Event.callDefault Op.purgeLazy])
  else
    match (derefTablePtr D canPL canPF (ehooks_get_extent_hooks_ptr w)).purge_lazy with
    | none => (true, w, [])
    | some f =>
        let p1 := ehooks_pre_reentrancy tsdn w
        let err := f addr size offset length arena_ind
        let p2 := ehooks_post_reentrancy tsdn p1.1
        (err, p2.1, p1.2 ++ [Event.callHook Op.purgeLazy] ++ p2.2)

/-- ehooks_purge_forced, symmetric to ehooks_purge_lazy with the canPF
capability flag. -/
def ehooks_purge_forced (D : DefaultImpls) (canPL canPF : Bool) (tsdn : Tsdn)
    (w : World) (addr : Ptr) (size offset length arena_ind : Nat) :
    Bool × World × List Event :=
  if canPF && isDefaultPtr (ehooks_get_extent_hooks_ptr w) then
    (D.purge_forced_impl addr offset length, w, [Event.callDefault Op.purgeForced])
  else
    match (derefTablePtr D canPL canPF (ehooks_get_extent_hooks_ptr w)).purge_forced with
    | none => (true, w, [])
    | some f =>
        let p1 := ehooks_pre_reentrancy tsdn w
        let err := f addr size offset length arena_ind
        let p2 := ehooks_post_reentrancy tsdn p1.1
        (err, p2.1, p1.2 ++ [Event.callHook Op.purgeForced] ++ p2.2)

/-- ehooks_split: the source tests the default case through
ehooks_are_default on the same loaded pointer; default fast path,
absent-slot fallback true, else a guarded indirect call. -/
def ehooks_split (D : DefaultImpls) (tsdn : Tsdn) (w : World) (addr : Ptr)
    (size size_a size_b : Nat) (committed : Bool) (arena_ind : Nat) :
    Bool × World × List Event :=
  match ehooks_get_extent_hooks_ptr w with
  | TablePtr.default =>
      (D.split_impl, w, [Event.callDefault Op.split])
  | TablePtr.custom t =>
      match t.split with
      | none => (true, w, [])
      | some f =>
          let p1 := ehooks_pre_reentrancy tsdn w
          let err := f addr size size_a size_b committed arena_ind
          let p2 := ehooks_post_reentrancy tsdn p1.1
          (err, p2.1, p1.2 ++ [Event.callHook Op.split] ++ p2.2)

/-- ehooks_merge: default fast path, absent-slot fallback true, else a
guarded indirect call. -/
def ehooks_merge (D : DefaultImpls) (tsdn : Tsdn) (w : World) (addr_a : Ptr)
    (size_a : Nat) (addr_b : Ptr) (size_b : Nat) (committed : Bool)
    (arena_ind : Nat) : Bool × World × List Event :=
  match ehooks_get_extent_hooks_ptr w with
  | TablePtr.default =>
      (D.merge_impl addr_a addr_b, w, [Event.callDefault Op.merge])
  | TablePtr.custom t =>
      match t.merge with
      | none => (true, w, [])
      | some f =>
          let p1 := ehooks_pre_reentrancy tsdn w
          let err := f addr_a size_a addr_b size_b committed arena_ind
          let p2 := ehooks_post_reentrancy tsdn p1.1
          (err, p2.1, p1.2 ++ [Event.callHook Op.merge] ++ p2.2)

/-- Guard events are the reentrancy enter and exit marks. -/
def isGuardEvent : Event → Bool
  | Event.preReentrancy => true
  | Event.postReentrancy => true
  | _ => false

/-- The guard events of a trace, in order. -/
def guardEvents (tr : List Event) : List Event :=
  tr.filter isGuardEvent

/-- A trace is guard balanced when it either never touches the guard or
engages it exactly once: a single enter followed by a single exit. -/
def guardBalanced (tr : List Event) : Prop :=
  guardEvents tr = [] ∨ guardEvents tr = [Event.preReentrancy, Event.postReentrancy]

/-- Net guard movement of a trace: enters minus exits. -/
def netGuard (tr : List Event) : Int :=
  ((guardEvents tr).count Event.preReentrancy : Int) -
    ((guardEvents tr).count Event.postReentrancy : Int)

/-- One dispatch invocation with its operation-specific arguments. -/
inductive CallDesc where
  | callAlloc (tsdn : Tsdn) (new_addr : Ptr) (size alignment : Nat)
      (zero commitFlag : Bool) (arena_ind : Nat)
  | callDalloc (tsdn : Tsdn) (addr : Ptr) (size : Nat) (committed : Bool)
      (arena_ind : Nat)
  | callDestroy (tsdn : Tsdn) (addr : Ptr) (size : Nat) (committed : Bool)
      (arena_ind : Nat)
  | callCommit (tsdn : Tsdn) (addr : Ptr) (size offset length arena_ind : Nat)
  | callDecommit (tsdn : Tsdn) (addr : Ptr) (size offset length arena_ind : Nat)
  | callPurgeLazy (tsdn : Tsdn) (addr : Ptr) (size offset length arena_ind : Nat)
  | callPurgeForced (tsdn : Tsdn) (addr : Ptr) (size offset length arena_ind : Nat)
  | callSplit (tsdn : Tsdn) (addr : Ptr) (size size_a size_b : Nat)
      (committed : Bool) (arena_ind : Nat)
  | callMerge (tsdn : Tsdn) (addr_a : Ptr) (size_a : Nat) (addr_b : Ptr)
      (size_b : Nat) (committed : Bool) (arena_ind : Nat)

/-- Run one dispatch invocation, keeping the final world and the trace;
none only for the undefined alloc case (absent alloc slot on a custom
table). -/
def runCall (D : DefaultImpls) (canPL canPF : Bool) (c : CallDesc) (w : World) :
    Option (World × List Event) :=
  match c with
  | CallDesc.callAlloc tsdn a s al z cm i =>
      (ehooks_alloc D tsdn w a s al z cm i).map (fun r => (r.2.1, r.2.2))
  | CallDesc.callDalloc tsdn a s cm i =>
      let r := ehooks_dalloc D tsdn w a s cm i
      some (r.2.1, r.2.2)
  | CallDesc.callDestroy tsdn a s cm i =>
      some (ehooks_destroy D tsdn w a s cm i)
  | CallDesc.callCommit tsdn a s o l i =>
      let r := ehooks_commit D tsdn w a s o l i
      some (r.2.1, r.2.2)
  | CallDesc.callDecommit tsdn a s o l i =>
      let r := ehooks_decommit D tsdn w a s o l i
      some (r.2.1, r.2.2)
  | CallDesc.callPurgeLazy tsdn a s o l i =>
      let r := ehooks_purge_lazy D canPL canPF tsdn w a s o l i
      some (r.2.1, r.2.2)
  | CallDesc.callPurgeForced tsdn a s o l i =>
      let r := ehooks_purge_forced D canPL canPF tsdn w a s o l i
      some (r.2.1, r.2.2)
  | CallDesc.callSplit tsdn a s sa sb cm i =>
      let r := ehooks_split D tsdn w a s sa sb cm i
      some (r.2.1, r.2.2)
  | CallDesc.callMerge tsdn aa sa ab sb cm i =>
      let r := ehooks_merge D tsdn w aa sa ab sb cm i
      some (r.2.1, r.2.2)

/-- Run a sequence of dispatch invocations, concatenating traces. -/
def runSeq (D : DefaultImpls) (canPL canPF : Bool) :
    List CallDesc → World → Option (World × List Event)
  | [], w => some (w, [])
  | c :: cs, w =>
      (runCall D canPL canPF c w).bind (fun p =>
        (runSeq D canPL canPF cs p.1).bind (fun q => some (q.1, p.2 ++ q.2)))

/-
Concurrency model for the atomic publication of the table pointer.
Modelled from the spec: the atomic primitives (atomic.h, not under
src/) act on a single atomic word holding the whole table reference,
stored with release ordering and loaded with acquire ordering; each
access is one indivisible step, so an interleaved reader observes a
whole previously stored reference, never a torn value.
-/

/-- The memory orderings used by the handle accessors. -/
inductive MemOrder where
  | relaxed
  | acquire
  | release
deriving DecidableEq, Repr

/-- One atomic access to the shared table-pointer word. -/
inductive AtomAct where
  | store (v : TablePtr) (o : MemOrder)
  | load (o : MemOrder)

/-- The atomic access performed by ehooks_set_extent_hooks_ptr: a
release store of the new table reference. -/
def ehooks_set_act (t : TablePtr) : AtomAct :=
  AtomAct.store t MemOrder.release

/-- The atomic access performed by ehooks_get_extent_hooks_ptr: an
acquire load. -/
def ehooks_get_act : AtomAct :=
  AtomAct.load MemOrder.acquire

/-- Effect of one atomic access on the shared word, together with the
value observed when the access is a load. -/
def stepAct (cell : TablePtr) : AtomAct → TablePtr × List TablePtr
  | AtomAct.store v _ => (v, [])
  | AtomAct.load _ => (cell, [cell])

/-- Run two threads of atomic accesses under a schedule (true picks the
first thread), collecting every value observed by a load. -/
def runInterleaving : List Bool → List AtomAct → List AtomAct → TablePtr → List TablePtr
  | [], _, _, _ => []
  | pick :: sched, p1, p2, cell =>
      if pick then
        match p1 with
        | [] => runInterleaving sched [] p2 cell
        | a :: rest =>
            let s := stepAct cell a
            s.2 ++ runInterleaving sched rest p2 s.1
      else
        match p2 with
        | [] => runInterleaving sched p1 [] cell
        | a :: rest =>
            let s := stepAct cell a
            s.2 ++ runInterleaving sched p1 rest s.1

/-- An act whose stored value, if any, satisfies P. -/
def actStoresIn (P : TablePtr → Prop) : AtomAct → Prop
  | AtomAct.store v _ => P v
  | AtomAct.load _ => True

/-- Concrete default-impl bundle used to evaluate theorems on closed
inputs. -/
def implsEx : DefaultImpls where
  alloc_impl := fun _ _ _ _ z c _ => (some 0, z, c)
  dalloc_impl := fun _ _ => false
  destroy_impl := fun _ _ => ()
  commit_impl := fun _ _ _ => false
  decommit_impl := fun _ _ _ => false
  purge_lazy_impl := fun _ _ _ => false
  purge_forced_impl := fun _ _ _ => false
  split_impl := true
  merge_impl := fun _ _ => false

/-- A custom table with every slot absent. -/
def emptyHooks : ExtentHooks where
  alloc := none
  dalloc := none
  destroy := none
  commitSlot := none
  decommit := none
  purge_lazy := none
  purge_forced := none
  split := none
  merge := none

/-- A custom table with only a purge_lazy hook, which reports success. -/
def plHooks : ExtentHooks :=
  { emptyHooks with purge_lazy := some (fun _ _ _ _ _ => false) }

/-- A custom table with only a purge_forced hook, which reports
success. -/
def pfHooks : ExtentHooks :=
  { emptyHooks with purge_forced := some (fun _ _ _ _ _ => false) }

/-- A custom table whose split hook is present but always reports
failure. -/
def splitFailHooks : ExtentHooks :=
  { emptyHooks with split := some (fun _ _ _ _ _ _ => true) }

/-- A custom table with only a destroy hook. -/
def destroyHooks : ExtentHooks :=
  { emptyHooks with destroy := some (fun _ _ _ _ => ()) }

/-- A custom table with only an alloc hook, which echoes the requested
address. -/
def allocHooks : ExtentHooks :=
  { emptyHooks with alloc := some (fun a _ _ z c _ => (some a, z, c)) }

/-- The guard enter and exit wrap the world symmetrically: state facts
about the pre and post helpers used by every guarded path. -/
theorem pre_post_state (tsdn : Tsdn) (w : World) (op : Op) :
    (ehooks_post_reentrancy tsdn (ehooks_pre_reentrancy tsdn w).1).1 = w ∧
    guardEvents ((ehooks_pre_reentrancy tsdn w).2 ++ [Event.callHook op] ++
      (ehooks_post_reentrancy tsdn (ehooks_pre_reentrancy tsdn w).1).2) =
      [Event.preReentrancy, Event.postReentrancy] := by
  cases w with
  | mk hp n =>
      cases tsdn with
      | none =>
          constructor
          · simp [ehooks_pre_reentrancy, ehooks_post_reentrancy, tsd_fetch,
              tsd_pre_reentrancy_raw, tsd_post_reentrancy_raw]
          · simp [ehooks_pre_reentrancy, ehooks_post_reentrancy, tsd_fetch,
              tsd_pre_reentrancy_raw, tsd_post_reentrancy_raw, guardEvents,
              isGuardEvent]
      | some u =>
          constructor
          · simp [ehooks_pre_reentrancy, ehooks_post_reentrancy, tsd_fetch,
              tsd_pre_reentrancy_raw, tsd_post_reentrancy_raw]
          · simp [ehooks_pre_reentrancy, ehooks_post_reentrancy, tsd_fetch,
              tsd_pre_reentrancy_raw, tsd_post_reentrancy_raw, guardEvents,
              isGuardEvent]

/-- ehooks_dalloc restores the world (handle reference and reentrancy
counter) and its trace is guard balanced on every path. -/
theorem ehooks_dalloc_state (D : DefaultImpls) (tsdn : Tsdn) (w : World)
    (addr : Ptr) (size : Nat) (committed : Bool) (arena_ind : Nat) :
    (ehooks_dalloc D tsdn w addr size committed arena_ind).2.1 = w ∧
    guardBalanced (ehooks_dalloc D tsdn w addr size committed arena_ind).2.2 := by
  cases hw : w.hooks with
  | default =>
      simp only [ehooks_dalloc, ehooks_get_extent_hooks_ptr, hw]
      exact ⟨trivial, Or.inl rfl⟩
  | custom t =>
      cases hs : t.dalloc with
      | none =>
          simp only [ehooks_dalloc, ehooks_get_extent_hooks_ptr, hw, hs]
          exact ⟨trivial, Or.inl rfl⟩
      | some f =>
          have h := pre_post_state tsdn w Op.dalloc
          simp only [ehooks_dalloc, ehooks_get_extent_hooks_ptr, hw, hs]
          exact ⟨h.1, Or.inr h.2⟩

/-- ehooks_destroy restores the world and its trace is guard balanced
on every path. -/
theorem ehooks_destroy_state (D : DefaultImpls) (tsdn : Tsdn) (w : World)
    (addr : Ptr) (size : Nat) (committed : Bool) (arena_ind : Nat) :
    (ehooks_destroy D tsdn w addr size committed arena_ind).1 = w ∧
    guardBalanced (ehooks_destroy D tsdn w addr size committed arena_ind).2 := by
  cases hw : w.hooks with
  | default =>
      simp only [ehooks_destroy, ehooks_get_extent_hooks_ptr, hw]
      exact ⟨trivial, Or.inl rfl⟩
  | custom t =>
      cases hs : t.destroy with
      | none =>
          simp only [ehooks_destroy, ehooks_get_extent_hooks_ptr, hw, hs]
          exact ⟨trivial, Or.inl rfl⟩
      | some f =>
          have h := pre_post_state tsdn w Op.destroy
          simp only [ehooks_destroy, ehooks_get_extent_hooks_ptr, hw, hs]
          exact ⟨h.1, Or.inr h.2⟩

/-- ehooks_commit restores the world and its trace is guard balanced
on every path. -/
theorem ehooks_commit_state (D : DefaultImpls) (tsdn : Tsdn) (w : World)
    (addr : Ptr) (size offset length arena_ind : Nat) :
    (ehooks_commit D tsdn w addr size offset length arena_ind).2.1 = w ∧
    guardBalanced (ehooks_commit D tsdn w addr size offset length arena_ind).2.2 := by
  cases hw : w.hooks with
  | default =>
      simp only [ehooks_commit, ehooks_get_extent_hooks_ptr, hw]
      exact ⟨trivial, Or.inl rfl⟩
  | custom t =>
      cases hs : t.commitSlot with
      | none =>
          simp only [ehooks_commit, ehooks_get_extent_hooks_ptr, hw, hs]
          exact ⟨trivial, Or.inl rfl⟩
      | some f =>
          have h := pre_post_state tsdn w Op.commitOp
          simp only [ehooks_commit, ehooks_get_extent_hooks_ptr, hw, hs]
          exact ⟨h.1, Or.inr h.2⟩

/-- ehooks_decommit restores the world and its trace is guard balanced
on every path. -/
theorem ehooks_decommit_state (D : DefaultImpls) (tsdn : Tsdn) (w : World)
    (addr : Ptr) (size offset length arena_ind : Nat) :
    (ehooks_decommit D tsdn w addr size offset length arena_ind).2.1 = w ∧
    guardBalanced (ehooks_decommit D tsdn w addr size offset length arena_ind).2.2 := by
  cases hw : w.hooks with
  | default =>
      simp only [ehooks_decommit, ehooks_get_extent_hooks_ptr, hw]
      exact ⟨trivial, Or.inl rfl⟩
  | custom t =>
      cases hs : t.decommit with
      | none =>
          simp only [ehooks_decommit, ehooks_get_extent_hooks_ptr, hw, hs]
          exact ⟨trivial, Or.inl rfl⟩
      | some f =>
          have h := pre_post_state tsdn w Op.decommit
          simp only [ehooks_decommit, ehooks_get_extent_hooks_ptr, hw, hs]
          exact ⟨h.1, Or.inr h.2⟩

/-- ehooks_split restores the world and its trace is guard balanced on
every path. -/
theorem ehooks_split_state (D : DefaultImpls) (tsdn : Tsdn) (w : World)
    (addr : Ptr) (size size_a size_b : Nat) (committed : Bool) (arena_ind : Nat) :
    (ehooks_split D tsdn w addr size size_a size_b committed arena_ind).2.1 = w ∧
    guardBalanced (ehooks_split D tsdn w addr size size_a size_b committed arena_ind).2.2 := by
  cases hw : w.hooks with
  | default =>
      simp only [ehooks_split, ehooks_get_extent_hooks_ptr, hw]
      exact ⟨trivial, Or.inl rfl⟩
  | custom t =>
      cases hs : t.split with
      | none =>
          simp only [ehooks_split, ehooks_get_extent_hooks_ptr, hw, hs]
          exact ⟨trivial, Or.inl rfl⟩
      | some f =>
          have h := pre_post_state tsdn w Op.split
          simp only [ehooks_split, ehooks_get_extent_hooks_ptr, hw, hs]
          exact ⟨h.1, Or.inr h.2⟩

/-- ehooks_merge restores the world and its trace is guard balanced on
every path. -/
theorem ehooks_merge_state (D : DefaultImpls) (tsdn : Tsdn) (w : World)
    (addr_a : Ptr) (size_a : Nat) (addr_b : Ptr) (size_b : Nat)
    (committed : Bool) (arena_ind : Nat) :
    (ehooks_merge D tsdn w addr_a size_a addr_b size_b committed arena_ind).2.1 = w ∧
    guardBalanced (ehooks_merge D tsdn w addr_a size_a addr_b size_b committed arena_ind).2.2 := by
  cases hw : w.hooks with
  | default =>
      simp only [ehooks_merge, ehooks_get_extent_hooks_ptr, hw]
      exact ⟨trivial, Or.inl rfl⟩
  | custom t =>
      cases hs : t.merge with
      | none =>
          simp only [ehooks_merge, ehooks_get_extent_hooks_ptr, hw, hs]
          exact ⟨trivial, Or.inl rfl⟩
      | some f =>
          have h := pre_post_state tsdn w Op.merge
          simp only [ehooks_merge, ehooks_get_extent_hooks_ptr, hw, hs]
          exact ⟨h.1, Or.inr h.2⟩

/-- ehooks_purge_lazy restores the world and its trace is guard
balanced on every path, for either capability-flag value. -/
theorem ehooks_purge_lazy_state (D : DefaultImpls) (canPL canPF : Bool)
    (tsdn : Tsdn) (w : World) (addr : Ptr) (size offset length arena_ind : Nat) :
    (ehooks_purge_lazy D canPL canPF tsdn w addr size offset length arena_ind).2.1 = w ∧
    guardBalanced (ehooks_purge_lazy D canPL canPF tsdn w addr size offset length arena_ind).2.2 := by
  cases hw : w.hooks with
  | default =>
      cases canPL with
      | true =>
          simp only [ehooks_purge_lazy, ehooks_get_extent_hooks_ptr, hw,
            isDefaultPtr, Bool.and_self, if_pos]
          exact ⟨trivial, Or.inl rfl⟩
      | false =>
          simp only [ehooks_purge_lazy, ehooks_get_extent_hooks_ptr, hw,
            isDefaultPtr, Bool.false_and, Bool.false_eq_true, if_false,
            derefTablePtr, ehooks_default_table, if_neg]
          exact ⟨trivial, Or.inl rfl⟩
  | custom t =>
      cases hs : t.purge_lazy with
      | none =>
          simp only [ehooks_purge_lazy, ehooks_get_extent_hooks_ptr, hw,
            isDefaultPtr, Bool.and_false, Bool.false_eq_true, if_false,
            derefTablePtr, hs]
          exact ⟨trivial, Or.inl rfl⟩
      | some f =>
          have h := pre_post_state tsdn w Op.purgeLazy
          simp only [ehooks_purge_lazy, ehooks_get_extent_hooks_ptr, hw,
            isDefaultPtr, Bool.and_false, Bool.false_eq_true, if_false,
            derefTablePtr, hs]
          exact ⟨h.1, Or.inr h.2⟩

/-- ehooks_purge_forced restores the world and its trace is guard
balanced on every path, for either capability-flag value. -/
theorem ehooks_purge_forced_state (D : DefaultImpls) (canPL canPF : Bool)
    (tsdn : Tsdn) (w : World) (addr : Ptr) (size offset length arena_ind : Nat) :
    (ehooks_purge_forced D canPL canPF tsdn w addr size offset length arena_ind).2.1 = w ∧
    guardBalanced (ehooks_purge_forced D canPL canPF tsdn w addr size offset length arena_ind).2.2 := by
  cases hw : w.hooks with
  | default =>
      cases canPF with
      | true =>
          simp only [ehooks_purge_forced, ehooks_get_extent_hooks_ptr, hw,
            isDefaultPtr, Bool.and_self, if_pos]
          exact ⟨trivial, Or.inl rfl⟩
      | false =>
          simp only [ehooks_purge_forced, ehooks_get_extent_hooks_ptr, hw,
            isDefaultPtr, Bool.false_and, Bool.false_eq_true, if_false,
            derefTablePtr, ehooks_default_table, if_neg]
          exact ⟨trivial, Or.inl rfl⟩
  | custom t =>
      cases hs : t.purge_forced with
      | none =>
          simp only [ehooks_purge_forced, ehooks_get_extent_hooks_ptr, hw,
            isDefaultPtr, Bool.and_false, Bool.false_eq_true, if_false,
            derefTablePtr, hs]
          exact ⟨trivial, Or.inl rfl⟩
      | some f =>
          have h := pre_post_state tsdn w Op.purgeForced
          simp only [ehooks_purge_forced, ehooks_get_extent_hooks_ptr, hw,
            isDefaultPtr, Bool.and_false, Bool.false_eq_true, if_false,
            derefTablePtr, hs]
          exact ⟨h.1, Or.inr h.2⟩

/-- Whenever ehooks_alloc is defined, it restores the world and its
trace is guard balanced. -/
theorem ehooks_alloc_state (D : DefaultImpls) (tsdn : Tsdn) (w : World)
    (new_addr : Ptr) (size alignment : Nat) (zero commitFlag : Bool)
    (arena_ind : Nat) :
    ∀ r, ehooks_alloc D tsdn w new_addr size alignment zero commitFlag arena_ind = some r →
      r.2.1 = w ∧ guardBalanced r.2.2 := by
  intro r hr
  cases hw : w.hooks with
  | default =>
      simp only [ehooks_alloc, ehooks_get_extent_hooks_ptr, hw,
        Option.some.injEq] at hr
      subst hr
      exact ⟨rfl, Or.inl rfl⟩
  | custom t =>
      cases hs : t.alloc with
      | none =>
          simp only [ehooks_alloc, ehooks_get_extent_hooks_ptr, hw, hs] at hr
          exact absurd hr (by simp)
      | some f =>
          have h := pre_post_state tsdn w Op.alloc
          simp only [ehooks_alloc, ehooks_get_extent_hooks_ptr, hw, hs,
            Option.some.injEq] at hr
          subst hr
          exact ⟨h.1, Or.inr h.2⟩

/-- A guard-balanced trace has net guard movement zero. -/
theorem guardBalanced_netGuard (tr : List Event) (h : guardBalanced tr) :
    netGuard tr = 0 := by
  cases h with
  | inl h => simp [netGuard, h]
  | inr h => simp [netGuard, h, List.count_cons]

/-- Net guard movement adds over trace concatenation. -/
theorem netGuard_append (a b : List Event) :
    netGuard (a ++ b) = netGuard a + netGuard b := by
  simp only [netGuard, guardEvents, List.filter_append, List.count_append]
  push_cast
  ring

/-- Any defined single dispatch call restores the world and has net
guard movement zero. -/
theorem runCall_state (D : DefaultImpls) (canPL canPF : Bool) (c : CallDesc)
    (w : World) :
    ∀ w2 tr, runCall D canPL canPF c w = some (w2, tr) → w2 = w ∧ netGuard tr = 0 := by
  intro w2 tr h
  cases c with
  | callAlloc tsdn a s al z cm i =>
      simp only [runCall, Option.map_eq_some'] at h
      obtain ⟨r, hr, heq⟩ := h
      have hs := ehooks_alloc_state D tsdn w a s al z cm i r hr
      obtain ⟨h1, h2⟩ := Prod.mk.injEq _ _ _ _ ▸ heq
      exact ⟨h1 ▸ hs.1, h2 ▸ guardBalanced_netGuard _ hs.2⟩
  | callDalloc tsdn a s cm i =>
      simp only [runCall, Option.some.injEq, Prod.mk.injEq] at h
      have hs := ehooks_dalloc_state D tsdn w a s cm i
      exact ⟨h.1 ▸ hs.1, h.2 ▸ guardBalanced_netGuard _ hs.2⟩
  | callDestroy tsdn a s cm i =>
      simp only [runCall, Option.some.injEq] at h
      have hs := ehooks_destroy_state D tsdn w a s cm i
      have h1 : (ehooks_destroy D tsdn w a s cm i).1 = w2 := congrArg Prod.fst h
      have h2 : (ehooks_destroy D tsdn w a s cm i).2 = tr := congrArg Prod.snd h
      exact ⟨h1 ▸ hs.1, h2 ▸ guardBalanced_netGuard _ hs.2⟩
  | callCommit tsdn a s o l i =>
      simp only [runCall, Option.some.injEq, Prod.mk.injEq] at h
      have hs := ehooks_commit_state D tsdn w a s o l i
      exact ⟨h.1 ▸ hs.1, h.2 ▸ guardBalanced_netGuard _ hs.2⟩
  | callDecommit tsdn a s o l i =>
      simp only [runCall, Option.some.injEq, Prod.mk.injEq] at h
      have hs := ehooks_decommit_state D tsdn w a s o l i
      exact ⟨h.1 ▸ hs.1, h.2 ▸ guardBalanced_netGuard _ hs.2⟩
  | callPurgeLazy tsdn a s o l i =>
      simp only [runCall, Option.some.injEq, Prod.mk.injEq] at h
      have hs := ehooks_purge_lazy_state D canPL canPF tsdn w a s o l i
      exact ⟨h.1 ▸ hs.1, h.2 ▸ guardBalanced_netGuard _ hs.2⟩
  | callPurgeForced tsdn a s o l i =>
      simp only [runCall, Option.some.injEq, Prod.mk.injEq] at h
      have hs := ehooks_purge_forced_state D canPL canPF tsdn w a s o l i
      exact ⟨h.1 ▸ hs.1, h.2 ▸ guardBalanced_netGuard _ hs.2⟩
  | callSplit tsdn a s sa sb cm i =>
      simp only [runCall, Option.some.injEq, Prod.mk.injEq] at h
      have hs := ehooks_split_state D tsdn w a s sa sb cm i
      exact ⟨h.1 ▸ hs.1, h.2 ▸ guardBalanced_netGuard _ hs.2⟩
  | callMerge tsdn aa sa ab sb cm i =>
      simp only [runCall, Option.some.injEq, Prod.mk.injEq] at h
      have hs := ehooks_merge_state D tsdn w aa sa ab sb cm i
      exact ⟨h.1 ▸ hs.1, h.2 ▸ guardBalanced_netGuard _ hs.2⟩

/-- Any defined sequence of dispatch calls restores the world and has
net guard movement zero over the concatenated trace. -/
theorem runSeq_state (D : DefaultImpls) (canPL canPF : Bool) :
    ∀ (cs : List CallDesc) (w w2 : World) (tr : List Event),
      runSeq D canPL canPF cs w = some (w2, tr) → w2 = w ∧ netGuard tr = 0 := by
  intro cs
  induction cs with
  | nil =>
      intro w w2 tr h
      simp only [runSeq, Option.some.injEq, Prod.mk.injEq] at h
      exact ⟨h.1.symm, h.2 ▸ by simp [netGuard, guardEvents]⟩
  | cons c cs ih =>
      intro w w2 tr h
      simp only [runSeq] at h
      cases hc : runCall D canPL canPF c w with
      | none => rw [hc] at h; exact absurd h (by simp)
      | some p =>
          obtain ⟨pw, ptr⟩ := p
          rw [hc] at h
          simp only [Option.some_bind] at h
          cases hrest : runSeq D canPL canPF cs pw with
          | none => rw [hrest] at h; exact absurd h (by simp)
          | some q =>
              obtain ⟨qw, qtr⟩ := q
              rw [hrest] at h
              simp only [Option.some_bind, Option.some.injEq, Prod.mk.injEq] at h
              have hone := runCall_state D canPL canPF c w pw ptr hc
              have hrec := ih pw qw qtr hrest
              have e1 := hone.2
              have e2 := hrec.2
              refine ⟨h.1 ▸ (hrec.1.trans hone.1), ?_⟩
              simp [← h.2, netGuard_append, e1, e2]

/-- Interleaving soundness: if the shared word starts inside P and
every store of either thread stores a value inside P, then every value
observed by any load, under any schedule, is inside P. -/
theorem runInterleaving_sound (P : TablePtr → Prop) :
    ∀ (sched : List Bool) (p1 p2 : List AtomAct) (cell : TablePtr),
      P cell → (∀ a ∈ p1, actStoresIn P a) → (∀ a ∈ p2, actStoresIn P a) →
      ∀ v ∈ runInterleaving sched p1 p2 cell, P v := by
  intro sched
  induction sched with
  | nil =>
      intro p1 p2 cell hc h1 h2 v hv
      simp [runInterleaving] at hv
  | cons pick sched ih =>
      intro p1 p2 cell hc h1 h2 v hv
      cases pick with
      | true =>
          cases p1 with
          | nil =>
              simp only [runInterleaving, if_true] at hv
              exact ih [] p2 cell hc (by simp) h2 v hv
          | cons a rest =>
              have hrest : ∀ b ∈ rest, actStoresIn P b :=
                fun b hb => h1 b (List.mem_cons_of_mem a hb)
              cases a with
              | store x o =>
                  simp only [runInterleaving, if_true, stepAct,
                    List.nil_append] at hv
                  have hx : P x := h1 (AtomAct.store x o) (List.mem_cons_self _ _)
                  exact ih rest p2 x hx hrest h2 v hv
              | load o =>
                  simp only [runInterleaving, if_true, stepAct] at hv
                  rcases List.mem_append.mp hv with hv | hv
                  · exact (List.mem_singleton.mp hv) ▸ hc
                  · exact ih rest p2 cell hc hrest h2 v hv
      | false =>
          cases p2 with
          | nil =>
              simp only [runInterleaving, if_false] at hv
              exact ih p1 [] cell hc h1 (by simp) v hv
          | cons a rest =>
              have hrest : ∀ b ∈ rest, actStoresIn P b :=
                fun b hb => h2 b (List.mem_cons_of_mem a hb)
              cases a with
              | store x o =>
                  simp only [runInterleaving, if_false, stepAct,
                    List.nil_append] at hv
                  have hx : P x := h2 (AtomAct.store x o) (List.mem_cons_self _ _)
                  exact ih p1 rest x hx h1 hrest v hv
              | load o =>
                  simp only [runInterleaving, if_false, stepAct] at hv
                  rcases List.mem_append.mp hv with hv | hv
                  · exact (List.mem_singleton.mp hv) ▸ hc
                  · exact ih p1 rest cell hc h1 hrest v hv

/-- C1: for every boolean-result dispatch operation (dalloc, commit,
decommit, purge_lazy, purge_forced, split, merge), if the current table
is not the default table and the corresponding slot is absent, the
operation returns true (the failure value) with the world unchanged and
an empty trace, so the reentrancy guard is never engaged. -/
theorem spec_c1_absent_slot_fallback (D : DefaultImpls) :
    (∀ (tsdn : Tsdn) (t : ExtentHooks) (n : Int) (addr : Ptr) (size : Nat)
        (committed : Bool) (arena_ind : Nat), t.dalloc = none →
      ehooks_dalloc D tsdn ⟨TablePtr.custom t, n⟩ addr size committed arena_ind =
        (true, ⟨TablePtr.custom t, n⟩, [])) ∧
    (∀ (tsdn : Tsdn) (t : ExtentHooks) (n : Int) (addr : Ptr)
        (size offset length arena_ind : Nat), t.commitSlot = none →
      ehooks_commit D tsdn ⟨TablePtr.custom t, n⟩ addr size offset length arena_ind =
        (true, ⟨TablePtr.custom t, n⟩, [])) ∧
    (∀ (tsdn : Tsdn) (t : ExtentHooks) (n : Int) (addr : Ptr)
        (size offset length arena_ind : Nat), t.decommit = none →
      ehooks_decommit D tsdn ⟨TablePtr.custom t, n⟩ addr size offset length arena_ind =
        (true, ⟨TablePtr.custom t, n⟩, [])) ∧
    (∀ (canPL canPF : Bool) (tsdn : Tsdn) (t : ExtentHooks) (n : Int) (addr : Ptr)
        (size offset length arena_ind : Nat), t.purge_lazy = none →
      ehooks_purge_lazy D canPL canPF tsdn ⟨TablePtr.custom t, n⟩ addr size offset
          length arena_ind =
        (true, ⟨TablePtr.custom t, n⟩, [])) ∧
    (∀ (canPL canPF : Bool) (tsdn : Tsdn) (t : ExtentHooks) (n : Int) (addr : Ptr)
        (size offset length arena_ind : Nat), t.purge_forced = none →
      ehooks_purge_forced D canPL canPF tsdn ⟨TablePtr.custom t, n⟩ addr size offset
          length arena_ind =
        (true, ⟨TablePtr.custom t, n⟩, [])) ∧
    (∀ (tsdn : Tsdn) (t : ExtentHooks) (n : Int) (addr : Ptr)
        (size size_a size_b : Nat) (committed : Bool) (arena_ind : Nat),
        t.split = none →
      ehooks_split D tsdn ⟨TablePtr.custom t, n⟩ addr size size_a size_b committed
          arena_ind =
        (true, ⟨TablePtr.custom t, n⟩, [])) ∧
    (∀ (tsdn : Tsdn) (t : ExtentHooks) (n : Int) (addr_a : Ptr) (size_a : Nat)
        (addr_b : Ptr) (size_b : Nat) (committed : Bool) (arena_ind : Nat),
        t.merge = none →
      ehooks_merge D tsdn ⟨TablePtr.custom t, n⟩ addr_a size_a addr_b size_b
          committed arena_ind =
        (true, ⟨TablePtr.custom t, n⟩, [])) := by
  refine ⟨?_, ?_, ?_, ?_, ?_, ?_, ?_⟩
  · intro tsdn t n addr size committed arena_ind h
    simp [ehooks_dalloc, ehooks_get_extent_hooks_ptr, h]
  · intro tsdn t n addr size offset length arena_ind h
    simp [ehooks_commit, ehooks_get_extent_hooks_ptr, h]
  · intro tsdn t n addr size offset length arena_ind h
    simp [ehooks_decommit, ehooks_get_extent_hooks_ptr, h]
  · intro canPL canPF tsdn t n addr size offset length arena_ind h
    simp [ehooks_purge_lazy, ehooks_get_extent_hooks_ptr, isDefaultPtr,
      derefTablePtr, h]
  · intro canPL canPF tsdn t n addr size offset length arena_ind h
    simp [ehooks_purge_forced, ehooks_get_extent_hooks_ptr, isDefaultPtr,
      derefTablePtr, h]
  · intro tsdn t n addr size size_a size_b committed arena_ind h
    simp [ehooks_split, ehooks_get_extent_hooks_ptr, h]
  · intro tsdn t n addr_a size_a addr_b size_b committed arena_ind h
    simp [ehooks_merge, ehooks_get_extent_hooks_ptr, h]

/-- Witness for C1 at concrete inputs: every hypothesis is discharged
on the all-absent custom table. -/
theorem spec_c1_absent_slot_fallback_witness :
    ehooks_dalloc implsEx (some ()) ⟨TablePtr.custom emptyHooks, 0⟩ 1 2 true 3 =
      (true, ⟨TablePtr.custom emptyHooks, 0⟩, []) ∧
    ehooks_commit implsEx (some ()) ⟨TablePtr.custom emptyHooks, 0⟩ 1 2 3 4 5 =
      (true, ⟨TablePtr.custom emptyHooks, 0⟩, []) ∧
    ehooks_decommit implsEx (some ()) ⟨TablePtr.custom emptyHooks, 0⟩ 1 2 3 4 5 =
      (true, ⟨TablePtr.custom emptyHooks, 0⟩, []) ∧
    ehooks_purge_lazy implsEx false true (some ()) ⟨TablePtr.custom emptyHooks, 0⟩
        1 2 3 4 5 =
      (true, ⟨TablePtr.custom emptyHooks, 0⟩, []) ∧
    ehooks_purge_forced implsEx true false (some ()) ⟨TablePtr.custom emptyHooks, 0⟩
        1 2 3 4 5 =
      (true, ⟨TablePtr.custom emptyHooks, 0⟩, []) ∧
    ehooks_split implsEx (some ()) ⟨TablePtr.custom emptyHooks, 0⟩ 1 2 3 4 true 5 =
      (true, ⟨TablePtr.custom emptyHooks, 0⟩, []) ∧
    ehooks_merge implsEx (some ()) ⟨TablePtr.custom emptyHooks, 0⟩ 1 2 3 4 true 5 =
      (true, ⟨TablePtr.custom emptyHooks, 0⟩, []) := by
  have h := spec_c1_absent_slot_fallback implsEx
  exact ⟨h.1 (some ()) emptyHooks 0 1 2 true 3 rfl,
    h.2.1 (some ()) emptyHooks 0 1 2 3 4 5 rfl,
    h.2.2.1 (some ()) emptyHooks 0 1 2 3 4 5 rfl,
    h.2.2.2.1 false true (some ()) emptyHooks 0 1 2 3 4 5 rfl,
    h.2.2.2.2.1 true false (some ()) emptyHooks 0 1 2 3 4 5 rfl,
    h.2.2.2.2.2.1 (some ()) emptyHooks 0 1 2 3 4 true 5 rfl,
    h.2.2.2.2.2.2 (some ()) emptyHooks 0 1 2 3 4 true 5 rfl⟩

/-- C2: for a handle whose current table reference is the default
table, ehooks_are_default is true and each of the nine dispatch
operations calls the corresponding default fast-path impl directly: the
result is that impl applied to the arguments, the world is untouched,
and the trace is a single direct-call event, with no guard event and no
indirect slot call.  The purge operations are taken with their
capability flag set, the build in which their fast-path impls exist. -/
theorem spec_c2_default_fast_path (D : DefaultImpls) (n : Int) :
    ehooks_are_default ⟨TablePtr.default, n⟩ = true ∧
    (∀ (tsdn : Tsdn) (new_addr : Ptr) (size alignment : Nat)
        (zero commitFlag : Bool) (arena_ind : Nat),
      ehooks_alloc D tsdn ⟨TablePtr.default, n⟩ new_addr size alignment zero
          commitFlag arena_ind =
        some (D.alloc_impl tsdn new_addr size alignment zero commitFlag arena_ind,
          ⟨TablePtr.default, n⟩, [Event.callDefault Op.alloc])) ∧
    (∀ (tsdn : Tsdn) (addr : Ptr) (size : Nat) (committed : Bool) (arena_ind : Nat),
      ehooks_dalloc D tsdn ⟨TablePtr.default, n⟩ addr size committed arena_ind =
        (D.dalloc_impl addr size, ⟨TablePtr.default, n⟩,
          [Event.callDefault Op.dalloc])) ∧
    (∀ (tsdn : Tsdn) (addr : Ptr) (size : Nat) (committed : Bool) (arena_ind : Nat),
      ehooks_destroy D tsdn ⟨TablePtr.default, n⟩ addr size committed arena_ind =
        (⟨TablePtr.default, n⟩, [Event.callDefault Op.destroy])) ∧
    (∀ (tsdn : Tsdn) (addr : Ptr) (size offset length arena_ind : Nat),
      ehooks_commit D tsdn ⟨TablePtr.default, n⟩ addr size offset length arena_ind =
        (D.commit_impl addr offset length, ⟨TablePtr.default, n⟩,
          [Event.callDefault Op.commitOp])) ∧
    (∀ (tsdn : Tsdn) (addr : Ptr) (size offset length arena_ind : Nat),
      ehooks_decommit D tsdn ⟨TablePtr.default, n⟩ addr size offset length arena_ind =
        (D.decommit_impl addr offset length, ⟨TablePtr.default, n⟩,
          [Event.callDefault Op.decommit])) ∧
    (∀ (canPF : Bool) (tsdn : Tsdn) (addr : Ptr) (size offset length arena_ind : Nat),
      ehooks_purge_lazy D true canPF tsdn ⟨TablePtr.default, n⟩ addr size offset
          length arena_ind =
        (D.purge_lazy_impl addr offset length, ⟨TablePtr.default, n⟩,
          [Event.callDefault Op.purgeLazy])) ∧
    (∀ (canPL : Bool) (tsdn : Tsdn) (addr : Ptr) (size offset length arena_ind : Nat),
      ehooks_purge_forced D canPL true tsdn ⟨TablePtr.default, n⟩ addr size offset
          length arena_ind =
        (D.purge_forced_impl addr offset length, ⟨TablePtr.default, n⟩,
          [Event.callDefault Op.purgeForced])) ∧
    (∀ (tsdn : Tsdn) (addr : Ptr) (size size_a size_b : Nat) (committed : Bool)
        (arena_ind : Nat),
      ehooks_split D tsdn ⟨TablePtr.default, n⟩ addr size size_a size_b committed
          arena_ind =
        (D.split_impl, ⟨TablePtr.default, n⟩, [Event.callDefault Op.split])) ∧
    (∀ (tsdn : Tsdn) (addr_a : Ptr) (size_a : Nat) (addr_b : Ptr) (size_b : Nat)
        (committed : Bool) (arena_ind : Nat),
      ehooks_merge D tsdn ⟨TablePtr.default, n⟩ addr_a size_a addr_b size_b
          committed arena_ind =
        (D.merge_impl addr_a addr_b, ⟨TablePtr.default, n⟩,
          [Event.callDefault Op.merge])) := by
  refine ⟨rfl, ?_, ?_, ?_, ?_, ?_, ?_, ?_, ?_, ?_⟩
  · intro tsdn new_addr size alignment zero commitFlag arena_ind; rfl
  · intro tsdn addr size committed arena_ind; rfl
  · intro tsdn addr size committed arena_ind; rfl
  · intro tsdn addr size offset length arena_ind; rfl
  · intro tsdn addr size offset length arena_ind; rfl
  · intro canPF tsdn addr size offset length arena_ind; rfl
  · intro canPL tsdn addr size offset length arena_ind; rfl
  · intro tsdn addr size size_a size_b committed arena_ind; rfl
  · intro tsdn addr_a size_a addr_b size_b committed arena_ind; rfl

/-- C3 counterexample: with the lazy-purge capability flag absent, a
custom table whose purge_lazy slot is populated (here, a hook that
reports success) has that slot invoked anyway, and the dispatcher
returns the hook result false, not the claimed direct failure true. -/
theorem spec_c3_capability_bypass_cex :
    (ehooks_purge_lazy implsEx false false (some ()) ⟨TablePtr.custom plHooks, 0⟩
      1 2 3 4 5).1 = false ∧
    Event.callHook Op.purgeLazy ∈
      (ehooks_purge_lazy implsEx false false (some ()) ⟨TablePtr.custom plHooks, 0⟩
        1 2 3 4 5).2.2 ∧
    (ehooks_purge_forced implsEx false false (some ()) ⟨TablePtr.custom pfHooks, 0⟩
      1 2 3 4 5).1 = false ∧
    Event.callHook Op.purgeForced ∈
      (ehooks_purge_forced implsEx false false (some ()) ⟨TablePtr.custom pfHooks, 0⟩
        1 2 3 4 5).2.2 := by
  refine ⟨rfl, ?_, rfl, ?_⟩
  · simp [ehooks_purge_lazy, ehooks_get_extent_hooks_ptr, isDefaultPtr,
      derefTablePtr, plHooks, emptyHooks, ehooks_pre_reentrancy,
      ehooks_post_reentrancy]
  · simp [ehooks_purge_forced, ehooks_get_extent_hooks_ptr, isDefaultPtr,
      derefTablePtr, pfHooks, emptyHooks, ehooks_pre_reentrancy,
      ehooks_post_reentrancy]

/-- C3 amended: the absent capability flag bypasses only the default
fast path.  For a custom table, an absent purge slot returns true with
no guard engaged, while a populated purge slot is still invoked, under
the reentrancy guard, and its result is returned. -/
theorem spec_c3_capability_bypass_amended (D : DefaultImpls) :
    (∀ (canPF : Bool) (tsdn : Tsdn) (t : ExtentHooks) (n : Int) (addr : Ptr)
        (size offset length arena_ind : Nat), t.purge_lazy = none →
      ehooks_purge_lazy D false canPF tsdn ⟨TablePtr.custom t, n⟩ addr size offset
          length arena_ind =
        (true, ⟨TablePtr.custom t, n⟩, [])) ∧
    (∀ (canPF : Bool) (tsdn : Tsdn) (t : ExtentHooks) (n : Int) (f : RangeHookT)
        (addr : Ptr) (size offset length arena_ind : Nat), t.purge_lazy = some f →
      (ehooks_purge_lazy D false canPF tsdn ⟨TablePtr.custom t, n⟩ addr size offset
          length arena_ind).1 = f addr size offset length arena_ind ∧
      (ehooks_purge_lazy D false canPF tsdn ⟨TablePtr.custom t, n⟩ addr size offset
          length arena_ind).2.1 = ⟨TablePtr.custom t, n⟩ ∧
      guardEvents (ehooks_purge_lazy D false canPF tsdn ⟨TablePtr.custom t, n⟩ addr
          size offset length arena_ind).2.2 =
        [Event.preReentrancy, Event.postReentrancy] ∧
      Event.callHook Op.purgeLazy ∈
        (ehooks_purge_lazy D false canPF tsdn ⟨TablePtr.custom t, n⟩ addr size
          offset length arena_ind).2.2) ∧
    (∀ (canPL : Bool) (tsdn : Tsdn) (t : ExtentHooks) (n : Int) (addr : Ptr)
        (size offset length arena_ind : Nat), t.purge_forced = none →
      ehooks_purge_forced D canPL false tsdn ⟨TablePtr.custom t, n⟩ addr size offset
          length arena_ind =
        (true, ⟨TablePtr.custom t, n⟩, [])) ∧
    (∀ (canPL : Bool) (tsdn : Tsdn) (t : ExtentHooks) (n : Int) (f : RangeHookT)
        (addr : Ptr) (size offset length arena_ind : Nat), t.purge_forced = some f →
      (ehooks_purge_forced D canPL false tsdn ⟨TablePtr.custom t, n⟩ addr size
          offset length arena_ind).1 = f addr size offset length arena_ind ∧
      (ehooks_purge_forced D canPL false tsdn ⟨TablePtr.custom t, n⟩ addr size
          offset length arena_ind).2.1 = ⟨TablePtr.custom t, n⟩ ∧
      guardEvents (ehooks_purge_forced D canPL false tsdn ⟨TablePtr.custom t, n⟩
          addr size offset length arena_ind).2.2 =
        [Event.preReentrancy, Event.postReentrancy] ∧
      Event.callHook Op.purgeForced ∈
        (ehooks_purge_forced D canPL false tsdn ⟨TablePtr.custom t, n⟩ addr size
          offset length arena_ind).2.2) := by
  refine ⟨?_, ?_, ?_, ?_⟩
  · intro canPF tsdn t n addr size offset length arena_ind h
    simp [ehooks_purge_lazy, ehooks_get_extent_hooks_ptr, isDefaultPtr,
      derefTablePtr, h]
  · intro canPF tsdn t n f addr size offset length arena_ind h
    have hp := pre_post_state tsdn ⟨TablePtr.custom t, n⟩ Op.purgeLazy
    simp only [ehooks_purge_lazy, ehooks_get_extent_hooks_ptr, isDefaultPtr,
      Bool.false_and, Bool.false_eq_true, if_false, derefTablePtr, h]
    refine ⟨trivial, hp.1, hp.2, ?_⟩
    cases tsdn <;>
      simp [ehooks_pre_reentrancy, ehooks_post_reentrancy]
  · intro canPL tsdn t n addr size offset length arena_ind h
    simp [ehooks_purge_forced, ehooks_get_extent_hooks_ptr, isDefaultPtr,
      derefTablePtr, h]
  · intro canPL tsdn t n f addr size offset length arena_ind h
    have hp := pre_post_state tsdn ⟨TablePtr.custom t, n⟩ Op.purgeForced
    simp only [ehooks_purge_forced, ehooks_get_extent_hooks_ptr, isDefaultPtr,
      Bool.false_and, Bool.false_eq_true, if_false, derefTablePtr, h]
    refine ⟨trivial, hp.1, hp.2, ?_⟩
    cases tsdn <;>
      simp [ehooks_pre_reentrancy, ehooks_post_reentrancy]

/-- Witness for the amended C3 at concrete inputs: both slot-absent and
slot-present cases, lazy and forced. -/
theorem spec_c3_capability_bypass_amended_witness :
    ehooks_purge_lazy implsEx false true (some ()) ⟨TablePtr.custom emptyHooks, 0⟩
        1 2 3 4 5 =
      (true, ⟨TablePtr.custom emptyHooks, 0⟩, []) ∧
    (ehooks_purge_lazy implsEx false false (some ()) ⟨TablePtr.custom plHooks, 0⟩
      1 2 3 4 5).2.1 = ⟨TablePtr.custom plHooks, 0⟩ ∧
    ehooks_purge_forced implsEx true false (some ()) ⟨TablePtr.custom emptyHooks, 0⟩
        1 2 3 4 5 =
      (true, ⟨TablePtr.custom emptyHooks, 0⟩, []) ∧
    (ehooks_purge_forced implsEx false false (some ()) ⟨TablePtr.custom pfHooks, 0⟩
      1 2 3 4 5).2.1 = ⟨TablePtr.custom pfHooks, 0⟩ := by
  have h := spec_c3_capability_bypass_amended implsEx
  exact ⟨h.1 true (some ()) emptyHooks 0 1 2 3 4 5 rfl,
    (h.2.1 false (some ()) plHooks 0 (fun _ _ _ _ _ => false) 1 2 3 4 5 rfl).2.1,
    h.2.2.1 true (some ()) emptyHooks 0 1 2 3 4 5 rfl,
    (h.2.2.2 false (some ()) pfHooks 0 (fun _ _ _ _ _ => false) 1 2 3 4 5 rfl).2.1⟩

/-- C4 counterexample: a custom table whose split hook is present but
always reports failure makes split_will_fail false while ehooks_split
still returns the failure value true, so the claimed equivalence does
not hold. -/
theorem spec_c4_will_fail_iff_cex :
    ehooks_split_will_fail implsEx true true ⟨TablePtr.custom splitFailHooks, 0⟩ =
      false ∧
    (ehooks_split implsEx (some ()) ⟨TablePtr.custom splitFailHooks, 0⟩
      1 2 3 4 true 5).1 = true := by
  exact ⟨rfl, rfl⟩

/-- C4 amended: the will-fail predicates imply failure, but not
conversely.  Whenever split_will_fail (merge_will_fail) is true, the
actual split (merge) dispatch on the same current table returns the
failure value true without engaging the guard; the predicates
themselves are pure reads by construction. -/
theorem spec_c4_will_fail_amended (D : DefaultImpls) (canPL canPF : Bool)
    (tsdn : Tsdn) (w : World) :
    (∀ (addr : Ptr) (size size_a size_b : Nat) (committed : Bool) (arena_ind : Nat),
      ehooks_split_will_fail D canPL canPF w = true →
      (ehooks_split D tsdn w addr size size_a size_b committed arena_ind).1 = true ∧
      guardEvents (ehooks_split D tsdn w addr size size_a size_b committed
        arena_ind).2.2 = []) ∧
    (∀ (addr_a : Ptr) (size_a : Nat) (addr_b : Ptr) (size_b : Nat)
        (committed : Bool) (arena_ind : Nat),
      ehooks_merge_will_fail D canPL canPF w = true →
      (ehooks_merge D tsdn w addr_a size_a addr_b size_b committed arena_ind).1 =
        true ∧
      guardEvents (ehooks_merge D tsdn w addr_a size_a addr_b size_b committed
        arena_ind).2.2 = []) := by
  constructor
  · intro addr size size_a size_b committed arena_ind hwf
    cases hw : w.hooks with
    | default =>
        rw [ehooks_split_will_fail, ehooks_get_extent_hooks_ptr, hw] at hwf
        simp [derefTablePtr, ehooks_default_table] at hwf
    | custom t =>
        cases hs : t.split with
        | none =>
            constructor <;>
              simp [ehooks_split, ehooks_get_extent_hooks_ptr, hw, hs, guardEvents]
        | some f =>
            rw [ehooks_split_will_fail, ehooks_get_extent_hooks_ptr, hw] at hwf
            simp [derefTablePtr, hs] at hwf
  · intro addr_a size_a addr_b size_b committed arena_ind hwf
    cases hw : w.hooks with
    | default =>
        rw [ehooks_merge_will_fail, ehooks_get_extent_hooks_ptr, hw] at hwf
        simp [derefTablePtr, ehooks_default_table] at hwf
    | custom t =>
        cases hs : t.merge with
        | none =>
            constructor <;>
              simp [ehooks_merge, ehooks_get_extent_hooks_ptr, hw, hs, guardEvents]
        | some f =>
            rw [ehooks_merge_will_fail, ehooks_get_extent_hooks_ptr, hw] at hwf
            simp [derefTablePtr, hs] at hwf

/-- Witness for the amended C4 at concrete inputs: the all-absent
custom table makes both predicates true and both dispatches fail with
no guard event. -/
theorem spec_c4_will_fail_amended_witness :
    ((ehooks_split implsEx (some ()) ⟨TablePtr.custom emptyHooks, 0⟩
        1 2 3 4 true 5).1 = true ∧
      guardEvents (ehooks_split implsEx (some ()) ⟨TablePtr.custom emptyHooks, 0⟩
        1 2 3 4 true 5).2.2 = []) ∧
    ((ehooks_merge implsEx (some ()) ⟨TablePtr.custom emptyHooks, 0⟩
        1 2 3 4 true 5).1 = true ∧
      guardEvents (ehooks_merge implsEx (some ()) ⟨TablePtr.custom emptyHooks, 0⟩
        1 2 3 4 true 5).2.2 = []) := by
  have h := spec_c4_will_fail_amended implsEx true true (some ())
    ⟨TablePtr.custom emptyHooks, 0⟩
  exact ⟨h.1 1 2 3 4 true 5 rfl, h.2 1 2 3 4 true 5 rfl⟩

/-- C5: every dispatch operation leaves the per-thread reentrancy
counter with net change zero, and on every control path its trace
either never touches the guard or contains exactly one matched
enter-exit pair in order; over any defined sequence of dispatch calls
the net guard movement is zero and the counter returns to its starting
value. -/
theorem spec_c5_guard_balance (D : DefaultImpls) (canPL canPF : Bool) :
    (∀ (tsdn : Tsdn) (w : World) (new_addr : Ptr) (size alignment : Nat)
        (zero commitFlag : Bool) (arena_ind : Nat) r,
      ehooks_alloc D tsdn w new_addr size alignment zero commitFlag arena_ind =
        some r →
      r.2.1.tsd = w.tsd ∧ guardBalanced r.2.2) ∧
    (∀ (tsdn : Tsdn) (w : World) (addr : Ptr) (size : Nat) (committed : Bool)
        (arena_ind : Nat),
      (ehooks_dalloc D tsdn w addr size committed arena_ind).2.1.tsd = w.tsd ∧
      guardBalanced (ehooks_dalloc D tsdn w addr size committed arena_ind).2.2) ∧
    (∀ (tsdn : Tsdn) (w : World) (addr : Ptr) (size : Nat) (committed : Bool)
        (arena_ind : Nat),
      (ehooks_destroy D tsdn w addr size committed arena_ind).1.tsd = w.tsd ∧
      guardBalanced (ehooks_destroy D tsdn w addr size committed arena_ind).2) ∧
    (∀ (tsdn : Tsdn) (w : World) (addr : Ptr) (size offset length arena_ind : Nat),
      (ehooks_commit D tsdn w addr size offset length arena_ind).2.1.tsd = w.tsd ∧
      guardBalanced (ehooks_commit D tsdn w addr size offset length arena_ind).2.2) ∧
    (∀ (tsdn : Tsdn) (w : World) (addr : Ptr) (size offset length arena_ind : Nat),
      (ehooks_decommit D tsdn w addr size offset length arena_ind).2.1.tsd = w.tsd ∧
      guardBalanced (ehooks_decommit D tsdn w addr size offset length arena_ind).2.2) ∧
    (∀ (tsdn : Tsdn) (w : World) (addr : Ptr) (size offset length arena_ind : Nat),
      (ehooks_purge_lazy D canPL canPF tsdn w addr size offset length
        arena_ind).2.1.tsd = w.tsd ∧
      guardBalanced (ehooks_purge_lazy D canPL canPF tsdn w addr size offset length
        arena_ind).2.2) ∧
    (∀ (tsdn : Tsdn) (w : World) (addr : Ptr) (size offset length arena_ind : Nat),
      (ehooks_purge_forced D canPL canPF tsdn w addr size offset length
        arena_ind).2.1.tsd = w.tsd ∧
      guardBalanced (ehooks_purge_forced D canPL canPF tsdn w addr size offset
        length arena_ind).2.2) ∧
    (∀ (tsdn : Tsdn) (w : World) (addr : Ptr) (size size_a size_b : Nat)
        (committed : Bool) (arena_ind : Nat),
      (ehooks_split D tsdn w addr size size_a size_b committed
        arena_ind).2.1.tsd = w.tsd ∧
      guardBalanced (ehooks_split D tsdn w addr size size_a size_b committed
        arena_ind).2.2) ∧
    (∀ (tsdn : Tsdn) (w : World) (addr_a : Ptr) (size_a : Nat) (addr_b : Ptr)
        (size_b : Nat) (committed : Bool) (arena_ind : Nat),
      (ehooks_merge D tsdn w addr_a size_a addr_b size_b committed
        arena_ind).2.1.tsd = w.tsd ∧
      guardBalanced (ehooks_merge D tsdn w addr_a size_a addr_b size_b committed
        arena_ind).2.2) ∧
    (∀ (cs : List CallDesc) (w w2 : World) (tr : List Event),
      runSeq D canPL canPF cs w = some (w2, tr) →
      w2.tsd = w.tsd ∧ netGuard tr = 0) := by
  refine ⟨?_, ?_, ?_, ?_, ?_, ?_, ?_, ?_, ?_, ?_⟩
  · intro tsdn w a s al z cm i r hr
    have h := ehooks_alloc_state D tsdn w a s al z cm i r hr
    exact ⟨congrArg World.tsd h.1, h.2⟩
  · intro tsdn w a s cm i
    have h := ehooks_dalloc_state D tsdn w a s cm i
    exact ⟨congrArg World.tsd h.1, h.2⟩
  · intro tsdn w a s cm i
    have h := ehooks_destroy_state D tsdn w a s cm i
    exact ⟨congrArg World.tsd h.1, h.2⟩
  · intro tsdn w a s o l i
    have h := ehooks_commit_state D tsdn w a s o l i
    exact ⟨congrArg World.tsd h.1, h.2⟩
  · intro tsdn w a s o l i
    have h := ehooks_decommit_state D tsdn w a s o l i
    exact ⟨congrArg World.tsd h.1, h.2⟩
  · intro tsdn w a s o l i
    have h := ehooks_purge_lazy_state D canPL canPF tsdn w a s o l i
    exact ⟨congrArg World.tsd h.1, h.2⟩
  · intro tsdn w a s o l i
    have h := ehooks_purge_forced_state D canPL canPF tsdn w a s o l i
    exact ⟨congrArg World.tsd h.1, h.2⟩
  · intro tsdn w a s sa sb cm i
    have h := ehooks_split_state D tsdn w a s sa sb cm i
    exact ⟨congrArg World.tsd h.1, h.2⟩
  · intro tsdn w aa sa ab sb cm i
    have h := ehooks_merge_state D tsdn w aa sa ab sb cm i
    exact ⟨congrArg World.tsd h.1, h.2⟩
  · intro cs w w2 tr h
    have hs := runSeq_state D canPL canPF cs w w2 tr h
    exact ⟨congrArg World.tsd hs.1, hs.2⟩

/-- Witness for C5: a concrete two-call sequence (an absent-slot dalloc
fallback, then a guarded custom purge with a NULL tsdn) runs to the
expected final world and trace, and the theorem instance gives counter
restoration and zero net guard movement for it. -/
theorem spec_c5_guard_balance_witness :
    runSeq implsEx false false
        [CallDesc.callDalloc (some ()) 1 2 true 3,
          CallDesc.callPurgeLazy none 1 2 3 4 5]
        ⟨TablePtr.custom plHooks, 0⟩ =
      some (⟨TablePtr.custom plHooks, 0⟩,
        [Event.tsdFetch, Event.preReentrancy, Event.callHook Op.purgeLazy,
          Event.tsdFetch, Event.postReentrancy]) ∧
    (World.mk (TablePtr.custom plHooks) 0).tsd =
      (World.mk (TablePtr.custom plHooks) 0).tsd ∧
    netGuard [Event.tsdFetch, Event.preReentrancy, Event.callHook Op.purgeLazy,
      Event.tsdFetch, Event.postReentrancy] = 0 := by
  refine ⟨rfl, ?_⟩
  exact (spec_c5_guard_balance implsEx false false).2.2.2.2.2.2.2.2.2
    [CallDesc.callDalloc (some ()) 1 2 true 3,
      CallDesc.callPurgeLazy none 1 2 3 4 5]
    ⟨TablePtr.custom plHooks, 0⟩ ⟨TablePtr.custom plHooks, 0⟩
    [Event.tsdFetch, Event.preReentrancy, Event.callHook Op.purgeLazy,
      Event.tsdFetch, Event.postReentrancy] rfl

/-- C6: the install accessor is a single release store of the whole
table reference and the current accessor a single acquire load; in the
interleaving model of the one-word atomic cell, a reader running
concurrently with an install of t2 over a cell holding t1 observes
either t1 or t2 under every schedule, never a torn value. -/
theorem spec_c6_atomic_publish (sched : List Bool) (t1 t2 : TablePtr)
    (v : TablePtr)
    (hv : v ∈ runInterleaving sched [ehooks_set_act t2] [ehooks_get_act] t1) :
    (v = t1 ∨ v = t2) ∧
    ehooks_set_act t2 = AtomAct.store t2 MemOrder.release ∧
    ehooks_get_act = AtomAct.load MemOrder.acquire := by
  refine ⟨?_, rfl, rfl⟩
  refine runInterleaving_sound (fun x => x = t1 ∨ x = t2) sched _ _ t1
    (Or.inl rfl) ?_ ?_ v hv
  · intro a ha
    simp only [ehooks_set_act, List.mem_singleton] at ha
    subst ha
    exact Or.inr rfl
  · intro a ha
    simp only [ehooks_get_act, List.mem_singleton] at ha
    subst ha
    trivial

/-- Witness for C6: under the schedule that runs the reader first, the
reader observes the prior table reference, and the theorem instance
classifies that observation. -/
theorem spec_c6_atomic_publish_witness :
    TablePtr.default ∈
      runInterleaving [false] [ehooks_set_act (TablePtr.custom emptyHooks)]
        [ehooks_get_act] TablePtr.default ∧
    ((TablePtr.default = TablePtr.default ∨
        TablePtr.default = TablePtr.custom emptyHooks) ∧
      ehooks_set_act (TablePtr.custom emptyHooks) =
        AtomAct.store (TablePtr.custom emptyHooks) MemOrder.release ∧
      ehooks_get_act = AtomAct.load MemOrder.acquire) := by
  have hm : TablePtr.default ∈
      runInterleaving [false] [ehooks_set_act (TablePtr.custom emptyHooks)]
        [ehooks_get_act] TablePtr.default := by
    simp [runInterleaving, stepAct, ehooks_get_act]
  exact ⟨hm, spec_c6_atomic_publish [false] TablePtr.default
    (TablePtr.custom emptyHooks) TablePtr.default hm⟩

/-- C7: every dispatch operation is read-only with respect to the
handle: the stored table reference after the call is exactly the one
before.  Only the two writers, ehooks_init and
ehooks_set_extent_hooks_ptr, change it, and they store exactly the
given reference.  The predicates ehooks_are_default,
ehooks_split_will_fail and ehooks_merge_will_fail are pure functions of
the world by their very type, so they cannot write at all. -/
theorem spec_c7_dispatch_read_only (D : DefaultImpls) (canPL canPF : Bool) :
    (∀ (tsdn : Tsdn) (w : World) (new_addr : Ptr) (size alignment : Nat)
        (zero commitFlag : Bool) (arena_ind : Nat) r,
      ehooks_alloc D tsdn w new_addr size alignment zero commitFlag arena_ind =
        some r →
      r.2.1.hooks = w.hooks) ∧
    (∀ (tsdn : Tsdn) (w : World) (addr : Ptr) (size : Nat) (committed : Bool)
        (arena_ind : Nat),
      (ehooks_dalloc D tsdn w addr size committed arena_ind).2.1.hooks = w.hooks) ∧
    (∀ (tsdn : Tsdn) (w : World) (addr : Ptr) (size : Nat) (committed : Bool)
        (arena_ind : Nat),
      (ehooks_destroy D tsdn w addr size committed arena_ind).1.hooks = w.hooks) ∧
    (∀ (tsdn : Tsdn) (w : World) (addr : Ptr) (size offset length arena_ind : Nat),
      (ehooks_commit D tsdn w addr size offset length arena_ind).2.1.hooks =
        w.hooks) ∧
    (∀ (tsdn : Tsdn) (w : World) (addr : Ptr) (size offset length arena_ind : Nat),
      (ehooks_decommit D tsdn w addr size offset length arena_ind).2.1.hooks =
        w.hooks) ∧
    (∀ (tsdn : Tsdn) (w : World) (addr : Ptr) (size offset length arena_ind : Nat),
      (ehooks_purge_lazy D canPL canPF tsdn w addr size offset length
        arena_ind).2.1.hooks = w.hooks) ∧
    (∀ (tsdn : Tsdn) (w : World) (addr : Ptr) (size offset length arena_ind : Nat),
      (ehooks_purge_forced D canPL canPF tsdn w addr size offset length
        arena_ind).2.1.hooks = w.hooks) ∧
    (∀ (tsdn : Tsdn) (w : World) (addr : Ptr) (size size_a size_b : Nat)
        (committed : Bool) (arena_ind : Nat),
      (ehooks_split D tsdn w addr size size_a size_b committed
        arena_ind).2.1.hooks = w.hooks) ∧
    (∀ (tsdn : Tsdn) (w : World) (addr_a : Ptr) (size_a : Nat) (addr_b : Ptr)
        (size_b : Nat) (committed : Bool) (arena_ind : Nat),
      (ehooks_merge D tsdn w addr_a size_a addr_b size_b committed
        arena_ind).2.1.hooks = w.hooks) ∧
    (∀ (w : World) (t : TablePtr),
      (ehooks_set_extent_hooks_ptr w t).hooks = t) ∧
    (∀ (w : World) (t : TablePtr), (ehooks_init w t).hooks = t) := by
  refine ⟨?_, ?_, ?_, ?_, ?_, ?_, ?_, ?_, ?_, ?_, ?_⟩
  · intro tsdn w a s al z cm i r hr
    exact congrArg World.hooks (ehooks_alloc_state D tsdn w a s al z cm i r hr).1
  · intro tsdn w a s cm i
    exact congrArg World.hooks (ehooks_dalloc_state D tsdn w a s cm i).1
  · intro tsdn w a s cm i
    exact congrArg World.hooks (ehooks_destroy_state D tsdn w a s cm i).1
  · intro tsdn w a s o l i
    exact congrArg World.hooks (ehooks_commit_state D tsdn w a s o l i).1
  · intro tsdn w a s o l i
    exact congrArg World.hooks (ehooks_decommit_state D tsdn w a s o l i).1
  · intro tsdn w a s o l i
    exact congrArg World.hooks
      (ehooks_purge_lazy_state D canPL canPF tsdn w a s o l i).1
  · intro tsdn w a s o l i
    exact congrArg World.hooks
      (ehooks_purge_forced_state D canPL canPF tsdn w a s o l i).1
  · intro tsdn w a s sa sb cm i
    exact congrArg World.hooks (ehooks_split_state D tsdn w a s sa sb cm i).1
  · intro tsdn w aa sa ab sb cm i
    exact congrArg World.hooks (ehooks_merge_state D tsdn w aa sa ab sb cm i).1
  · intro w t; rfl
  · intro w t; rfl

/-- Witness for C7: a concrete defined alloc call on the default table,
with the theorem instance giving handle preservation for it. -/
theorem spec_c7_dispatch_read_only_witness :
    ehooks_alloc implsEx (some ()) ⟨TablePtr.default, 0⟩ 1 2 3 true false 4 =
      some ((some 0, true, false), ⟨TablePtr.default, 0⟩,
        [Event.callDefault Op.alloc]) ∧
    ((some 0, true, false), (⟨TablePtr.default, 0⟩ : World),
      [Event.callDefault Op.alloc]).2.1.hooks =
      (⟨TablePtr.default, 0⟩ : World).hooks := by
  refine ⟨rfl, ?_⟩
  exact (spec_c7_dispatch_read_only implsEx true true).1 (some ())
    ⟨TablePtr.default, 0⟩ 1 2 3 true false 4
    ((some 0, true, false), ⟨TablePtr.default, 0⟩, [Event.callDefault Op.alloc])
    rfl

/-- C8: for a non-default table with an absent destroy slot,
ehooks_destroy returns immediately with the world unchanged and an
empty trace: no hook call, no guard, no observable effect.  When a
destroy hook is present it runs under the guard and the world is still
restored; ehooks_destroy carries no result payload in any case (its
value type is only the world and the trace, mirroring the void return),
so a hook result can never be observed. -/
theorem spec_c8_destroy_no_effect (D : DefaultImpls) :
    (∀ (tsdn : Tsdn) (t : ExtentHooks) (n : Int) (addr : Ptr) (size : Nat)
        (committed : Bool) (arena_ind : Nat), t.destroy = none →
      ehooks_destroy D tsdn ⟨TablePtr.custom t, n⟩ addr size committed arena_ind =
        (⟨TablePtr.custom t, n⟩, [])) ∧
    (∀ (tsdn : Tsdn) (t : ExtentHooks) (n : Int) (f : DestroyHookT) (addr : Ptr)
        (size : Nat) (committed : Bool) (arena_ind : Nat), t.destroy = some f →
      (ehooks_destroy D tsdn ⟨TablePtr.custom t, n⟩ addr size committed
        arena_ind).1 = ⟨TablePtr.custom t, n⟩ ∧
      guardEvents (ehooks_destroy D tsdn ⟨TablePtr.custom t, n⟩ addr size committed
        arena_ind).2 = [Event.preReentrancy, Event.postReentrancy] ∧
      Event.callHook Op.destroy ∈
        (ehooks_destroy D tsdn ⟨TablePtr.custom t, n⟩ addr size committed
          arena_ind).2) := by
  constructor
  · intro tsdn t n addr size committed arena_ind h
    simp [ehooks_destroy, ehooks_get_extent_hooks_ptr, h]
  · intro tsdn t n f addr size committed arena_ind h
    have hp := pre_post_state tsdn ⟨TablePtr.custom t, n⟩ Op.destroy
    simp only [ehooks_destroy, ehooks_get_extent_hooks_ptr, h]
    refine ⟨hp.1, hp.2, ?_⟩
    cases tsdn <;>
      simp [ehooks_pre_reentrancy, ehooks_post_reentrancy]

/-- Witness for C8 at concrete inputs: the absent-slot no-op and the
present-slot guarded call. -/
theorem spec_c8_destroy_no_effect_witness :
    ehooks_destroy implsEx (some ()) ⟨TablePtr.custom emptyHooks, 0⟩ 1 2 true 3 =
      (⟨TablePtr.custom emptyHooks, 0⟩, []) ∧
    (ehooks_destroy implsEx (some ()) ⟨TablePtr.custom destroyHooks, 0⟩
      1 2 true 3).1 = ⟨TablePtr.custom destroyHooks, 0⟩ := by
  have h := spec_c8_destroy_no_effect implsEx
  exact ⟨h.1 (some ()) emptyHooks 0 1 2 true 3 rfl,
    (h.2 (some ()) destroyHooks 0 (fun _ _ _ _ => ()) 1 2 true 3 rfl).1⟩

/-- C9: the guard helpers are total on a NULL thread-context token:
with tsdn absent they fetch the thread context on the fly (the
tsdFetch event) and apply the raw enter or exit to it, producing
exactly the same context change as when a token is supplied. -/
theorem spec_c9_guard_total_null_tsdn (w : World) :
    ehooks_pre_reentrancy none w =
      ({ w with tsd := w.tsd + 1 }, [Event.tsdFetch, Event.preReentrancy]) ∧
    ehooks_post_reentrancy none w =
      ({ w with tsd := w.tsd - 1 }, [Event.tsdFetch, Event.postReentrancy]) ∧
    (ehooks_pre_reentrancy none w).1 = (ehooks_pre_reentrancy (some ()) w).1 ∧
    (ehooks_post_reentrancy none w).1 = (ehooks_post_reentrancy (some ()) w).1 := by
  exact ⟨rfl, rfl, rfl, rfl⟩

/-- C10: ehooks_alloc has no absent-slot fallback.  On a non-default
table the call is defined exactly when the alloc slot is present; an
absent slot yields no result at all (the unconditional dereference of a
NULL slot), and a present slot is always invoked under the guard with
its value returned, never a canned result. -/
theorem spec_c10_alloc_no_fallback (D : DefaultImpls) (tsdn : Tsdn)
    (t : ExtentHooks) (n : Int) (new_addr : Ptr) (size alignment : Nat)
    (zero commitFlag : Bool) (arena_ind : Nat) :
    (ehooks_alloc D tsdn ⟨TablePtr.custom t, n⟩ new_addr size alignment zero
        commitFlag arena_ind = none ↔ t.alloc = none) ∧
    (∀ f, t.alloc = some f → ∀ r,
      ehooks_alloc D tsdn ⟨TablePtr.custom t, n⟩ new_addr size alignment zero
        commitFlag arena_ind = some r →
      r.1 = f new_addr size alignment zero commitFlag arena_ind ∧
      r.2.1 = ⟨TablePtr.custom t, n⟩ ∧
      guardEvents r.2.2 = [Event.preReentrancy, Event.postReentrancy] ∧
      Event.callHook Op.alloc ∈ r.2.2) := by
  constructor
  · cases ht : t.alloc with
    | none => simp [ehooks_alloc, ehooks_get_extent_hooks_ptr, ht]
    | some f => simp [ehooks_alloc, ehooks_get_extent_hooks_ptr, ht]
  · intro f hf r hr
    have hp := pre_post_state tsdn ⟨TablePtr.custom t, n⟩ Op.alloc
    simp only [ehooks_alloc, ehooks_get_extent_hooks_ptr, hf,
      Option.some.injEq] at hr
    subst hr
    refine ⟨rfl, hp.1, hp.2, ?_⟩
    cases tsdn <;>
      simp [ehooks_pre_reentrancy, ehooks_post_reentrancy]

/-- Witness for C10 at concrete inputs: the absent-slot call is
undefined, and a present-slot call restores the world. -/
theorem spec_c10_alloc_no_fallback_witness :
    ehooks_alloc implsEx (some ()) ⟨TablePtr.custom emptyHooks, 0⟩ 1 2 3 true false
      4 = none ∧
    (((some 7, true, false) : Option Ptr × Bool × Bool),
      (⟨TablePtr.custom allocHooks, 0⟩ : World),
      [Event.preReentrancy, Event.callHook Op.alloc,
        Event.postReentrancy]).2.1 = ⟨TablePtr.custom allocHooks, 0⟩ := by
  refine ⟨?_, ?_⟩
  · exact (spec_c10_alloc_no_fallback implsEx (some ()) emptyHooks 0 1 2 3 true
      false 4).1.mpr rfl
  · exact ((spec_c10_alloc_no_fallback implsEx (some ()) allocHooks 0 7 2 3 true
      false 4).2 (fun a _ _ z c _ => (some a, z, c)) rfl
      ((some 7, true, false), ⟨TablePtr.custom allocHooks, 0⟩,
        [Event.preReentrancy, Event.callHook Op.alloc, Event.postReentrancy])
      rfl).2.1
